import Mathlib

/-!
# go-retry: retry with backoff

A shallow embedding of `retry.go` and a verification of its specification.

Conventions of the embedding.

* Go's `uint` is taken at 64 bits and `time.Duration` is an `int64` count of
  nanoseconds.  Both are embedded in `Nat` / `Int` with explicit wrap-around
  (`toUint`, `wrapInt64`, `% uintSize`).
* Go's `error` interface is `Option ErrorValue`, `none` being `nil`.
* The callables handed to the library (`Retryable`, `RetryWait`) are Go
  closures and may have effects; they are embedded as state transformers over
  a caller-chosen world `σ`.  `time.Sleep` is a parameter of `Do` for the same
  reason.
* `Do` is an unbounded `for` loop; it is embedded with a fuel argument and
  returns `none` when the fuel is used up before the loop returns.
* The source mixes `uint`, `float64` and `time.Duration` operands and the
  shapes `Retryable` / `RetryWait` without the conversions Go asks for.  The
  embedding follows the bodies of the functions and inserts the conversions.
-/

namespace GoRetry

/-! ## Machine integers and durations -/

/-- Number of values of the type `uint`. -/
def uintSize : Nat := 2 ^ 64

/-- Conversion of an integer to `uint`: reduction modulo `2^64`. -/
def toUint (x : Int) : Nat := (x % (uintSize : Int)).toNat

/-- Conversion of an integer to `int64`: two's complement wrap-around. -/
def wrapInt64 (x : Int) : Int := (x + 2 ^ 63) % 2 ^ 64 - 2 ^ 63

/-- The type `time.Duration`: a number of nanoseconds. -/
abbrev Duration := Int

/-- The constant `time.Millisecond`. -/
def Millisecond : Duration := 1000000

/-- The constant `time.Second`. -/
def Second : Duration := 1000000000

/-! ## Errors -/

/-- Dynamic types of error values. -/
inductive GoType where
  /-- The type `*errors.errorString` of the values built by `fmt.Errorf`. -/
  | errorString
  /-- Any other type, by name. -/
  | named (name : String)
deriving DecidableEq

/-- A non-nil value of the interface `error`: its dynamic type, the address it
points to (its identity under `==`) and its message. -/
structure ErrorValue where
  dynType : GoType
  addr : Nat
  msg : String
deriving DecidableEq

/-- The interface type `error`; `none` is `nil`. -/
abbrev error := Option ErrorValue

/-- The call `fmt.Errorf(msg)`, allocating at `addr`. -/
def fmtErrorf (addr : Nat) (msg : String) : error :=
  some { dynType := GoType.errorString, addr := addr, msg := msg }

/-- The package variable `RetryExhaustedError`. -/
def RetryExhaustedError : error := fmtErrorf 0 "Function never succeeded in Retry"

/-- The second result of a type assertion `e.(T)`: `e` is not nil and its
dynamic type is (or implements) `T`.  `T` is given by the dynamic types that
satisfy it. -/
def typeAssert (T : GoType → Bool) (e : error) : Bool :=
  match e with
  | none => false
  | some v => T v.dynType

/-- The function `RetryExhausted`: `_, ok := e.(RetryExhaustedError); return ok`.
The package declares no type named `RetryExhaustedError` (the name is the
variable above), so the asserted type is the parameter `T`. -/
def RetryExhausted (T : GoType → Bool) (e : error) : Bool :=
  typeAssert T e

/-! ## Callables -/

/-- The type `Retryable`: from the 0-indexed iteration to `(done, error)`. -/
abbrev Retryable (σ : Type) := Nat → σ → (Bool × error) × σ

/-- The type `RetryWait`: from the iteration to `(time.Duration, error)`. -/
abbrev RetryWait (σ : Type) := Nat → σ → (Duration × error) × σ

/-! ## Backoff policies -/

/-- The function `LinearBackoff`: `return i * unit, nil`, the product taken in
`time.Duration`. -/
def LinearBackoff (i : Nat) (unit : Duration) : Duration × error :=
  (wrapInt64 (wrapInt64 (i : Int) * unit), none)

/-- The function `LinearBackoffSecond`. -/
def LinearBackoffSecond (i : Nat) : Duration × error :=
  LinearBackoff i Second

/-- The function `LinearBackoffMillisecond`. -/
def LinearBackoffMillisecond (i : Nat) : Duration × error :=
  LinearBackoff i Millisecond

/-- The conversion `time.Duration(math.Pow(2, float64(i)))`.  The power of two
is an exact `float64` (or `+Inf`); below `2^63` its conversion to `int64` is
exact, and from `2^63` on Go leaves the result to the implementation, which is
the parameter `outOfRange`, read as an `int64`. -/
def pow2Duration (outOfRange : Nat → Int) (i : Nat) : Duration :=
  if i < 63 then 2 ^ i else wrapInt64 (outOfRange i)

/-- The function `ExponentialBackoff`: `return math.Pow(2, i) * time.Second, nil`,
the product taken in `time.Duration`. -/
def ExponentialBackoff (outOfRange : Nat → Int) (i : Nat) : Duration × error :=
  (wrapInt64 (pow2Duration outOfRange i * Second), none)

/-! ## Combinators -/

/-- The function `MaxTries`: the returned closure answers
`nil, RetryExhaustedError` when `i > maxIterations` and `r(i)` otherwise.  The
first component `nil` is the zero value of the wrapped callable's first
result. -/
def MaxTries {α σ : Type} [Inhabited α] (maxIterations : Nat)
    (r : Nat → σ → (α × error) × σ) : Nat → σ → (α × error) × σ :=
  fun i s =>
    if i > maxIterations then ((default, RetryExhaustedError), s)
    else r i s

/-- The function `MaxInterval`: `d, err := r(i)`, then `i, err` when `d > i`
and `d, err` otherwise.  The argument of `r` is the parameter `i`, converted to
`uint`. -/
def MaxInterval {σ : Type} (i : Duration) (r : RetryWait σ) (s : σ) :
    (Duration × error) × σ :=
  match r (toUint i) s with
  | ((d, err), s1) => if d > i then ((i, err), s1) else ((d, err), s1)

/-- The function `MinInterval`: `d, err := r(i)`, then `i, err` when `d < i`
and `d, err` otherwise. -/
def MinInterval {σ : Type} (i : Duration) (r : RetryWait σ) (s : σ) :
    (Duration × error) × σ :=
  match r (toUint i) s with
  | ((d, err), s1) => if d < i then ((i, err), s1) else ((d, err), s1)

/-! ## The driver -/

/-- The struct `Retrier`. -/
structure Retrier (σ : Type) where
  waitF : RetryWait σ
  f : Retryable σ
  errors : List error

/-- The function `NewRetrier`; the field `errors` starts as the nil slice. -/
def NewRetrier {σ : Type} (waitF : RetryWait σ) (f : Retryable σ) : Retrier σ :=
  { waitF := waitF, f := f, errors := [] }

/-- The loop of `Do`, entered with the counter at `i`.  Each pass calls
`r.waitF(i)`, returns its error when there is one, sleeps, calls `r.f(i)`,
appends its error to `r.errors` and returns it when `done`; otherwise the
counter is incremented.  The result is the returned error, the driver as the
loop left it and the world; `none` when `fuel` passes did not return. -/
def Retrier.DoFrom {σ : Type} (sleep : Duration → σ → σ) :
    Nat → Nat → Retrier σ → σ → Option (error × Retrier σ × σ)
  | 0, _, _, _ => none
  | fuel + 1, i, r, s =>
    match r.waitF i s with
    | ((d, err), s1) =>
      if err.isSome then some (err, r, s1)
      else
        match r.f i (sleep d s1) with
        | ((done, err2), s2) =>
          if done then some (err2, { r with errors := r.errors ++ [err2] }, s2)
          else
            Retrier.DoFrom sleep fuel ((i + 1) % uintSize)
              { r with errors := r.errors ++ [err2] } s2

/-- The method `Do`: the loop from `i := 0`. -/
def Retrier.Do {σ : Type} (sleep : Duration → σ → σ) (fuel : Nat) (r : Retrier σ) (s : σ) :
    Option (error × Retrier σ × σ) :=
  Retrier.DoFrom sleep fuel 0 r s

/-- One pass of the loop of `Do` at counter `i`: `Sum.inl` with what `Do`
returns when the pass returns, `Sum.inr` with the next counter, the driver and
the world when the loop goes on. -/
def Retrier.pass {σ : Type} (sleep : Duration → σ → σ) (i : Nat) (r : Retrier σ) (s : σ) :
    (error × Retrier σ × σ) ⊕ (Nat × Retrier σ × σ) :=
  match r.waitF i s with
  | ((d, err), s1) =>
    if err.isSome then Sum.inl (err, r, s1)
    else
      match r.f i (sleep d s1) with
      | ((done, err2), s2) =>
        if done then Sum.inl (err2, { r with errors := r.errors ++ [err2] }, s2)
        else Sum.inr ((i + 1) % uintSize, { r with errors := r.errors ++ [err2] }, s2)

/-- The counter, the driver and the world after `k` passes of the loop entered
at counter `i`; `none` when one of these passes returned.  The log is a list
here; in the source it is a slice, whose length is an `int`, so the states of a
run are those after fewer than `2^63` passes. -/
def Retrier.afterPasses {σ : Type} (sleep : Duration → σ → σ) :
    Nat → Nat → Retrier σ → σ → Option (Nat × Retrier σ × σ)
  | 0, i, r, s => some (i, r, s)
  | k + 1, i, r, s =>
    match Retrier.pass sleep i r s with
    | Sum.inl _ => none
    | Sum.inr (i2, r2, s2) => Retrier.afterPasses sleep k i2 r2 s2

/-! ## Observing calls

Which calls a run makes is stated over a world that is the list of the calls
made so far, with callables that compute a function of the index and record
their call. -/

/-- One observable step of a run. -/
inductive Event where
  /-- The wait policy was called with this index. -/
  | waitCall (i : Nat)
  /-- `time.Sleep` was called with this duration. -/
  | slept (d : Duration)
  /-- The operation was called with this index. -/
  | opCall (i : Nat)
deriving DecidableEq

/-- A callable that returns `g i` and records `mk i`. -/
def observed {α : Type} (mk : Nat → Event) (g : Nat → α) : Nat → List Event → α × List Event :=
  fun i tr => (g i, tr ++ [mk i])

/-- A wait policy computing `w` and recording its calls. -/
def observedWait (w : Nat → Duration × error) : RetryWait (List Event) :=
  observed Event.waitCall w

/-- An operation computing `f` and recording its calls. -/
def observedOp (f : Nat → Bool × error) : Retryable (List Event) :=
  observed Event.opCall f

/-- A `time.Sleep` that records its calls. -/
def observedSleep (d : Duration) (tr : List Event) : List Event :=
  tr ++ [Event.slept d]

/-- The indices the operation was called with, in order. -/
def opCalls (tr : List Event) : List Nat :=
  tr.filterMap fun ev =>
    match ev with
    | Event.opCall i => some i
    | _ => none

/-- The indices the wait policy was called with, in order. -/
def waitCalls (tr : List Event) : List Nat :=
  tr.filterMap fun ev =>
    match ev with
    | Event.waitCall i => some i
    | _ => none

/-- The events of the passes `i, i+1, ..., i+k-1` of the loop when none of them
returns early: wait call, sleep, operation call. -/
def passes (w : Nat → Duration × error) (i k : Nat) : List Event :=
  (List.range' i k).flatMap fun j =>
    [Event.waitCall j, Event.slept (w j).1, Event.opCall j]

/-- The errors the operation returns at `i, i+1, ..., i+k-1`. -/
def opErrors (f : Nat → Bool × error) (i k : Nat) : List error :=
  (List.range' i k).map fun j => (f j).2

/-- What a run returns, with the driver reduced to its error log. -/
def summary {σ : Type} (o : Option (error × Retrier σ × σ)) : Option (error × List error × σ) :=
  o.map fun t => (t.1, t.2.1.errors, t.2.2)

/-- A run of `Do` on a fresh driver built from functions `w` and `f` of the
index, with every call recorded. -/
def observedRun (w : Nat → Duration × error) (f : Nat → Bool × error) (fuel : Nat) :
    Option (error × List error × List Event) :=
  summary (Retrier.Do observedSleep fuel (NewRetrier (observedWait w) (observedOp f)) [])

/-- The durations `time.Sleep` was called with, in order. -/
def sleeps (tr : List Event) : List Duration :=
  tr.filterMap fun ev =>
    match ev with
    | Event.slept d => some d
    | _ => none

/-- The calls to the wait policy and to the operation, in order, the sleeps
left out. -/
def calls (tr : List Event) : List Event :=
  tr.filter fun ev =>
    match ev with
    | Event.slept _ => false
    | _ => true

/-- The call sequence `w(i), f(i), w(i+1), f(i+1), ...` of `k` passes. -/
def alternating (i k : Nat) : List Event :=
  (List.range' i k).flatMap fun j => [Event.waitCall j, Event.opCall j]

/-- The events of `k` passes that do not return, the counter of the first one
being `i`, with the counter taken modulo `uintSize`. -/
def passesMod (w : Nat → Duration × error) (i k : Nat) : List Event :=
  (List.range' i k).flatMap fun j =>
    [Event.waitCall (j % uintSize), Event.slept (w (j % uintSize)).1,
      Event.opCall (j % uintSize)]

/-- The index `j` ends the loop: the wait policy returns an error there or the
operation reports done. -/
def terminal (w : Nat → Duration × error) (f : Nat → Bool × error) (j : Nat) : Bool :=
  (w j).2.isSome || (f j).1

/-- A driver over recorded `w` and `f` whose log is `L`. -/
def observedDriver (w : Nat → Duration × error) (f : Nat → Bool × error) (L : List error) :
    Retrier (List Event) :=
  { waitF := observedWait w, f := observedOp f, errors := L }

/-- The loop state after `k` passes of a run of `Do` on a fresh driver over
recorded `w` and `f`, reduced to the counter, the log and the trace. -/
def observedAfter (w : Nat → Duration × error) (f : Nat → Bool × error) (k : Nat) :
    Option (Nat × List error × List Event) :=
  (Retrier.afterPasses observedSleep k 0 (NewRetrier (observedWait w) (observedOp f)) []).map
    fun st => (st.1, st.2.1.errors, st.2.2)

/-! ## Scenarios -/

/-- A wait policy that always answers a zero duration and no error. -/
def zeroWait : Nat → Duration × error :=
  fun _ => (0, none)

/-- A wait policy that fails at index 2. -/
def waitFailsAtTwo : Nat → Duration × error :=
  fun i => (5, if i = 2 then fmtErrorf 9 "policy failed" else none)

/-- An operation that fails at indices 0 and 1 and reports done, with no error,
at index 2. -/
def doneAtTwo : Nat → Bool × error :=
  fun i => (decide (i = 2), if i < 2 then fmtErrorf (i + 1) "not yet" else none)

/-- An operation that never reports done. -/
def neverDone : Nat → Bool × error :=
  fun i => (false, fmtErrorf (i + 1) "failed")

/-- An operation that reports done at once, with an error. -/
def doneWithError : Nat → Bool × error :=
  fun _ => (true, fmtErrorf 7 "gave up")

/-- A wait policy that answers 7 ns and a non-nil error, whatever the index. -/
def sevenWithError : RetryWait Unit :=
  fun _ s => ((7, fmtErrorf 3 "late"), s)

/-- The out-of-range conversion of amd64: always the smallest `int64`. -/
def indefinite : Nat → Int :=
  fun _ => -9223372036854775808

/-- A wait policy computing `LinearBackoffSecond` and recording its calls. -/
def linearSecondWait : RetryWait (List Event) :=
  observedWait LinearBackoffSecond

/-! ## Arithmetic of the conversions -/

theorem uintSize_pos : 0 < uintSize := by
  unfold uintSize; positivity

theorem succ_mod_uintSize {i : Nat} (h : i + 1 < uintSize) : (i + 1) % uintSize = i + 1 :=
  Nat.mod_eq_of_lt h

theorem wrapInt64_eq_self {x : Int} (hlo : -2 ^ 63 ≤ x) (hhi : x < 2 ^ 63) : wrapInt64 x = x := by
  unfold wrapInt64
  rw [Int.emod_eq_of_lt (by omega) (by omega)]
  omega

theorem wrapInt64_add_mul (x k : Int) : wrapInt64 (x + 2 ^ 64 * k) = wrapInt64 x := by
  unfold wrapInt64
  have : x + 2 ^ 64 * k + 2 ^ 63 = x + 2 ^ 63 + 2 ^ 64 * k := by ring
  rw [this, Int.add_mul_emod_self_left]

theorem wrapInt64_spec (x : Int) : ∃ k : Int, wrapInt64 x = x + 2 ^ 64 * k := by
  refine ⟨-((x + 2 ^ 63) / 2 ^ 64), ?_⟩
  unfold wrapInt64
  have := Int.emod_add_ediv (x + 2 ^ 63) (2 ^ 64)
  linarith

theorem wrapInt64_mul_wrapInt64 (a b : Int) : wrapInt64 (wrapInt64 a * b) = wrapInt64 (a * b) := by
  obtain ⟨k, hk⟩ := wrapInt64_spec a
  rw [hk]
  have : (a + 2 ^ 64 * k) * b = a * b + 2 ^ 64 * (k * b) := by ring
  rw [this, wrapInt64_add_mul]

/-! ## One pass of the loop -/

section Driver

variable {σ : Type}

theorem DoFrom_zero (sleep : Duration → σ → σ) (i : Nat) (r : Retrier σ) (s : σ) :
    Retrier.DoFrom sleep 0 i r s = none := rfl

theorem DoFrom_waitErr (sleep : Duration → σ → σ) (fuel i : Nat) (r : Retrier σ) (s s1 : σ)
    (d : Duration) (ev : ErrorValue) (hw : r.waitF i s = ((d, some ev), s1)) :
    Retrier.DoFrom sleep (fuel + 1) i r s = some (some ev, r, s1) := by
  simp [Retrier.DoFrom, hw]

theorem DoFrom_done (sleep : Duration → σ → σ) (fuel i : Nat) (r : Retrier σ) (s s1 s2 : σ)
    (d : Duration) (e : error) (hw : r.waitF i s = ((d, none), s1))
    (hf : r.f i (sleep d s1) = ((true, e), s2)) :
    Retrier.DoFrom sleep (fuel + 1) i r s
      = some (e, { r with errors := r.errors ++ [e] }, s2) := by
  simp [Retrier.DoFrom, hw, hf]

theorem DoFrom_pass (sleep : Duration → σ → σ) (fuel i : Nat) (r : Retrier σ) (s s1 s2 : σ)
    (d : Duration) (e : error) (hw : r.waitF i s = ((d, none), s1))
    (hf : r.f i (sleep d s1) = ((false, e), s2)) :
    Retrier.DoFrom sleep (fuel + 1) i r s
      = Retrier.DoFrom sleep fuel ((i + 1) % uintSize)
          { r with errors := r.errors ++ [e] } s2 := by
  simp [Retrier.DoFrom, hw, hf]

end Driver

/-! ## Traces -/

theorem passes_zero (w : Nat → Duration × error) (i : Nat) : passes w i 0 = [] := rfl

theorem passes_succ (w : Nat → Duration × error) (i k : Nat) :
    passes w i (k + 1)
      = [Event.waitCall i, Event.slept (w i).1, Event.opCall i] ++ passes w (i + 1) k := by
  simp [passes, List.range'_succ]

theorem opErrors_succ (f : Nat → Bool × error) (i k : Nat) :
    opErrors f i (k + 1) = (f i).2 :: opErrors f (i + 1) k := by
  simp [opErrors, List.range'_succ]

theorem opCalls_append (a b : List Event) : opCalls (a ++ b) = opCalls a ++ opCalls b := by
  simp [opCalls, List.filterMap_append]

theorem waitCalls_append (a b : List Event) : waitCalls (a ++ b) = waitCalls a ++ waitCalls b := by
  simp [waitCalls, List.filterMap_append]

theorem opCalls_passes (w : Nat → Duration × error) (k : Nat) :
    ∀ i, opCalls (passes w i k) = List.range' i k := by
  induction k with
  | zero => intro i; rfl
  | succ k ih =>
    intro i
    rw [passes_succ, opCalls_append, ih (i + 1), List.range'_succ]
    rfl

theorem waitCalls_passes (w : Nat → Duration × error) (k : Nat) :
    ∀ i, waitCalls (passes w i k) = List.range' i k := by
  induction k with
  | zero => intro i; rfl
  | succ k ih =>
    intro i
    rw [passes_succ, waitCalls_append, ih (i + 1), List.range'_succ]
    rfl

/-! ## Several passes of the loop -/

theorem observedWait_of_ok (w : Nat → Duration × error) (j : Nat) (h : (w j).2 = none)
    (t : List Event) :
    observedWait w j t = (((w j).1, none), t ++ [Event.waitCall j]) := by
  simp [observedWait, observed, Prod.ext_iff, h]

/-- Passes `i, ..., i+k-1` that neither fail in the wait policy nor report done
leave the loop at index `i+k`, the log extended by the operation's errors and
the trace by the three calls of each pass. -/
theorem DoFrom_passes (W : RetryWait (List Event)) (w : Nat → Duration × error)
    (f : Nat → Bool × error) (k : Nat) :
    ∀ (i fuel : Nat) (L : List error) (tr : List Event),
      i + k < uintSize →
      (∀ j, i ≤ j → j < i + k →
        ∀ t, W j t = (((w j).1, none), t ++ [Event.waitCall j])) →
      (∀ j, i ≤ j → j < i + k → (f j).1 = false) →
      Retrier.DoFrom observedSleep (k + fuel) i
          { waitF := W, f := observedOp f, errors := L } tr
        = Retrier.DoFrom observedSleep fuel (i + k)
            { waitF := W, f := observedOp f, errors := L ++ opErrors f i k }
            (tr ++ passes w i k) := by
  induction k with
  | zero =>
    intro i fuel L tr _ _ _
    simp [opErrors, passes]
  | succ k ih =>
    intro i fuel L tr hlt hW hf
    have hfi : f i = (false, (f i).2) := by
      have := hf i (le_refl i) (by omega)
      exact Prod.ext this rfl
    have hstep := DoFrom_pass observedSleep (k + fuel) i
      { waitF := W, f := observedOp f, errors := L } tr (tr ++ [Event.waitCall i])
      (tr ++ [Event.waitCall i] ++ [Event.slept (w i).1] ++ [Event.opCall i])
      (w i).1 (f i).2 (hW i (le_refl i) (by omega) tr)
      (by
        show observedOp f i (observedSleep (w i).1 (tr ++ [Event.waitCall i])) = _
        simp only [observedOp, observed, observedSleep]
        rw [← hfi])
    have hk : k + 1 + fuel = k + fuel + 1 := by omega
    rw [hk, hstep, succ_mod_uintSize (by omega)]
    have := ih (i + 1) fuel (L ++ [(f i).2])
      (tr ++ [Event.waitCall i] ++ [Event.slept (w i).1] ++ [Event.opCall i])
      (by omega) (fun j h1 h2 => hW j (by omega) (by omega))
      (fun j h1 h2 => hf j (by omega) (by omega))
    rw [this, opErrors_succ, passes_succ]
    have e1 : i + 1 + k = i + (k + 1) := by omega
    simp [e1, List.append_assoc]

/-- A loop whose wait policy never fails and whose operation never reports
done does not return, whatever the fuel. -/
theorem DoFrom_none_of_never {σ : Type} (sleep : Duration → σ → σ) (W : RetryWait σ)
    (F : Retryable σ) (hW : ∀ i, i < uintSize → ∀ s, (W i s).1.2 = none)
    (hF : ∀ i s, (F i s).1.1 = false) :
    ∀ (fuel i : Nat) (L : List error) (s : σ), i < uintSize →
      Retrier.DoFrom sleep fuel i { waitF := W, f := F, errors := L } s = none := by
  intro fuel
  induction fuel with
  | zero => intro i L s _; rfl
  | succ fuel ih =>
    intro i L s hi
    have h1 := hW i hi s
    rcases hWi : W i s with ⟨⟨d, err⟩, s1⟩
    rw [hWi] at h1
    simp only at h1
    subst h1
    have h2 := hF i (sleep d s1)
    rcases hFi : F i (sleep d s1) with ⟨⟨done, err2⟩, s2⟩
    rw [hFi] at h2
    simp only at h2
    subst h2
    rw [DoFrom_pass sleep fuel i _ s s1 s2 d err2 hWi hFi]
    exact ih _ _ _ (Nat.mod_lt _ uintSize_pos)

/-- The run of a fresh driver over recorded `w` and `f` when the operation first
reports done at index `n` and the wait policy has not failed up to `n`. -/
theorem observedRun_done (w : Nat → Duration × error) (f : Nat → Bool × error) (n : Nat)
    (e : error) (hn : n < uintSize) (hw : ∀ i, i ≤ n → (w i).2 = none)
    (hf : ∀ i, i < n → (f i).1 = false) (hdone : f n = (true, e))
    (fuel : Nat) (hfuel : n < fuel) :
    observedRun w f fuel = some (e, opErrors f 0 (n + 1), passes w 0 (n + 1)) := by
  obtain ⟨fuel2, rfl⟩ : ∃ fuel2, fuel = n + (fuel2 + 1) := ⟨fuel - n - 1, by omega⟩
  have hpass := DoFrom_passes (observedWait w) w f n 0 (fuel2 + 1) [] [] (by omega)
    (fun j _ hj t => observedWait_of_ok w j (hw j (by omega)) t)
    (fun j _ hj => hf j (by omega))
  have hlast := DoFrom_done observedSleep fuel2 (0 + n)
    { waitF := observedWait w, f := observedOp f, errors := [] ++ opErrors f 0 n }
    ([] ++ passes w 0 n) ([] ++ passes w 0 n ++ [Event.waitCall (0 + n)])
    ([] ++ passes w 0 n ++ [Event.waitCall (0 + n)] ++ [Event.slept (w (0 + n)).1]
      ++ [Event.opCall (0 + n)])
    (w (0 + n)).1 e
    (by
      rw [Nat.zero_add]
      exact observedWait_of_ok w n (hw n (le_refl n)) _)
    (by
      rw [Nat.zero_add]
      simp [observedOp, observed, observedSleep, hdone])
  unfold observedRun Retrier.Do NewRetrier
  rw [hpass, hlast]
  simp [summary, opErrors, passes, List.range'_concat, hdone]

/-- The run of a fresh driver over recorded `w` and `f` when the wait policy
first fails at index `n` and the operation has not reported done before. -/
theorem observedRun_waitErr (w : Nat → Duration × error) (f : Nat → Bool × error) (n : Nat)
    (ev : ErrorValue) (hn : n < uintSize) (hw : ∀ i, i < n → (w i).2 = none)
    (hf : ∀ i, i < n → (f i).1 = false) (herr : (w n).2 = some ev)
    (fuel : Nat) (hfuel : n < fuel) :
    observedRun w f fuel
      = some (some ev, opErrors f 0 n, passes w 0 n ++ [Event.waitCall n]) := by
  obtain ⟨fuel2, rfl⟩ : ∃ fuel2, fuel = n + (fuel2 + 1) := ⟨fuel - n - 1, by omega⟩
  have hpass := DoFrom_passes (observedWait w) w f n 0 (fuel2 + 1) [] [] (by omega)
    (fun j _ hj t => observedWait_of_ok w j (hw j (by omega)) t)
    (fun j _ hj => hf j (by omega))
  have hlast := DoFrom_waitErr observedSleep fuel2 (0 + n)
    { waitF := observedWait w, f := observedOp f, errors := [] ++ opErrors f 0 n }
    ([] ++ passes w 0 n) ([] ++ passes w 0 n ++ [Event.waitCall (0 + n)])
    (w (0 + n)).1 ev
    (by
      rw [Nat.zero_add]
      simp [observedWait, observed, Prod.ext_iff, herr])
  unfold observedRun Retrier.Do NewRetrier
  rw [hpass, hlast]
  simp [summary]

/-! ## The specification, checked -/

/-- C1: when the wait policy returns no error at the indices 0..n and the
operation reports done for the first time at index n, with error e, `Do` returns
exactly e, having called the operation exactly n+1 times, with the arguments
0, 1, ..., n in that order (given fuel for n+1 passes). -/
theorem Do_returns_error_of_first_done (w : Nat → Duration × error) (f : Nat → Bool × error)
    (n : Nat) (e : error) (hn : n < uintSize) (hw : ∀ i, i ≤ n → (w i).2 = none)
    (hf : ∀ i, i < n → (f i).1 = false) (hdone : f n = (true, e))
    (fuel : Nat) (hfuel : n < fuel) :
    (observedRun w f fuel).map (fun o => (o.1, opCalls o.2.2))
      = some (e, List.range (n + 1)) := by
  rw [observedRun_done w f n e hn hw hf hdone fuel hfuel]
  simp [opCalls_passes, List.range_eq_range']

/-- Scenario A: a zero-wait policy and an operation that fails at indices 0 and 1
and is done without error at index 2: `Do` returns nil after the calls 0, 1, 2. -/
theorem Do_returns_error_of_first_done_witness :
    (observedRun zeroWait doneAtTwo 3).map (fun o => (o.1, opCalls o.2.2))
      = some (none, [0, 1, 2]) :=
  Do_returns_error_of_first_done zeroWait doneAtTwo 2 none (by decide) (fun _ _ => rfl)
    (by decide) rfl 3 (by decide)

/-- C2: when the operation does not report done below index n, the wait policy
returns no error below n and returns the non-nil error `ev` at n, `Do` returns
exactly that error and the operation has been called exactly n times, with the
indices 0..n-1: it is never called with index n. -/
theorem Do_returns_wait_error (w : Nat → Duration × error) (f : Nat → Bool × error)
    (n : Nat) (ev : ErrorValue) (hn : n < uintSize) (hf : ∀ i, i < n → (f i).1 = false)
    (hw : ∀ i, i < n → (w i).2 = none) (herr : (w n).2 = some ev)
    (fuel : Nat) (hfuel : n < fuel) :
    (observedRun w f fuel).map (fun o => (o.1, opCalls o.2.2))
        = some (some ev, List.range n)
      ∧ ∀ o, observedRun w f fuel = some o → n ∉ opCalls o.2.2 := by
  rw [observedRun_waitErr w f n ev hn hw hf herr fuel hfuel]
  have hcalls : opCalls (passes w 0 n ++ [Event.waitCall n]) = List.range n := by
    rw [opCalls_append, opCalls_passes, List.range_eq_range']
    simp [opCalls]
  refine ⟨by simp [hcalls], ?_⟩
  intro o ho
  cases ho
  simp [hcalls]

/-- A wait policy failing at index 2 under an operation that is never done: `Do`
returns the policy's error after the operation calls 0 and 1. -/
theorem Do_returns_wait_error_witness :
    (observedRun waitFailsAtTwo neverDone 3).map (fun o => (o.1, opCalls o.2.2))
        = some (fmtErrorf 9 "policy failed", [0, 1])
      ∧ ∀ o, observedRun waitFailsAtTwo neverDone 3 = some o → 2 ∉ opCalls o.2.2 :=
  Do_returns_wait_error waitFailsAtTwo neverDone 2
    { dynType := GoType.errorString, addr := 9, msg := "policy failed" }
    (by decide) (fun _ _ => rfl) (by decide) rfl 3 (by decide)

/-- C3, on the code: `MaxTries m` stands where its declared type `Retryable` puts
it, round the operation.  From index m+1 on it answers `nil, RetryExhaustedError`
without calling the operation: done is the zero value false, so `Do` appends the
sentinel to the log and goes on, and with a wait policy that never fails `Do`
does not return for any amount of fuel.  With m = 3, after 8 passes the wrapped
operation has been called with 0, 1, 2, 3 only, the sentinel has been logged four
times and the loop is still running. -/
theorem Do_MaxTries_round_operation_never_returns :
    (∀ m fuel,
        Retrier.Do observedSleep fuel
          (NewRetrier (observedWait zeroWait) (MaxTries m (observedOp neverDone))) [] = none)
      ∧ (Retrier.afterPasses observedSleep 8 0
            (NewRetrier (observedWait zeroWait) (MaxTries 3 (observedOp neverDone))) []).map
          (fun st => (st.1, st.2.1.errors, opCalls st.2.2))
        = some (8,
            [fmtErrorf 1 "failed", fmtErrorf 2 "failed", fmtErrorf 3 "failed",
              fmtErrorf 4 "failed", RetryExhaustedError, RetryExhaustedError,
              RetryExhaustedError, RetryExhaustedError],
            [0, 1, 2, 3]) := by
  constructor
  · intro m fuel
    unfold Retrier.Do NewRetrier
    exact DoFrom_none_of_never observedSleep (observedWait zeroWait)
      (MaxTries m (observedOp neverDone)) (fun i _ s => rfl)
      (fun i s => by
        unfold MaxTries
        split <;> rfl)
      fuel 0 [] [] uintSize_pos
  · decide

/-- C4: for a fresh driver whose `Do` returns because the operation reported done
at index n (the wait policy not having failed up to n and the operation not
having been done before), `Do` returns the operation's error at n and the error
log is exactly the list of the errors the operation returned at the indices
0, 1, ..., n, in that order, nil entries included. -/
theorem Do_log_of_first_done (w : Nat → Duration × error) (f : Nat → Bool × error)
    (n : Nat) (e : error) (hn : n < uintSize) (hw : ∀ i, i ≤ n → (w i).2 = none)
    (hf : ∀ i, i < n → (f i).1 = false) (hdone : f n = (true, e))
    (fuel : Nat) (hfuel : n < fuel) :
    (observedRun w f fuel).map (fun o => (o.1, o.2.1))
      = some (e, (List.range (n + 1)).map fun i => (f i).2) := by
  rw [observedRun_done w f n e hn hw hf hdone fuel hfuel]
  simp [opErrors, List.range_eq_range']

/-- Scenario C: an operation done on its first call with a non-nil error: `Do`
returns that error and the log holds exactly that one entry. -/
theorem Do_log_of_first_done_witness :
    (observedRun zeroWait doneWithError 1).map (fun o => (o.1, o.2.1))
      = some (fmtErrorf 7 "gave up", [fmtErrorf 7 "gave up"]) :=
  Do_log_of_first_done zeroWait doneWithError 0 (fmtErrorf 7 "gave up") (by decide)
    (fun _ _ => rfl) (by decide) rfl 1 (by decide)

/-- C5: `MaxTries maxIterations r` called with i is `r` called with i when
i <= maxIterations; when i > maxIterations it answers `RetryExhaustedError` and
leaves the world as it was, so `r` is not called: a recording `r` records one
call, with i, in the first case and none in the second. -/
theorem MaxTries_delegates_or_exhausts {α σ : Type} [Inhabited α] (maxIterations : Nat)
    (r : Nat → σ → (α × error) × σ) (i : Nat) (s : σ) :
    (i ≤ maxIterations → MaxTries maxIterations r i s = r i s)
      ∧ (i > maxIterations →
          (MaxTries maxIterations r i s).1.2 = RetryExhaustedError
            ∧ (MaxTries maxIterations r i s).2 = s)
      ∧ (∀ (mk : Nat → Event) (g : Nat → α × error) (tr : List Event),
          (i ≤ maxIterations →
            MaxTries maxIterations (observed mk g) i tr = (g i, tr ++ [mk i]))
          ∧ (i > maxIterations →
            (MaxTries maxIterations (observed mk g) i tr).2 = tr)) := by
  refine ⟨?_, ?_, ?_⟩
  · intro h
    have hle : ¬ i > maxIterations := by omega
    simp [MaxTries, hle]
  · intro h
    simp [MaxTries, h]
  · intro mk g tr
    constructor
    · intro h
      have hle : ¬ i > maxIterations := by omega
      simp [MaxTries, hle, observed]
    · intro h
      simp [MaxTries, h]

/-- C6: when the call that `MaxInterval` makes to the wrapped function returns
the duration d, the duration `MaxInterval` returns with ceiling c never exceeds
c, equals d whenever d <= c, and is min(d, c). -/
theorem MaxInterval_clamps_to_ceiling {σ : Type} (c : Duration) (r : RetryWait σ) (s s1 : σ)
    (d : Duration) (err : error) (hr : r (toUint c) s = ((d, err), s1)) :
    (MaxInterval c r s).1.1 ≤ c
      ∧ (d ≤ c → (MaxInterval c r s).1.1 = d)
      ∧ (MaxInterval c r s).1.1 = min d c := by
  unfold MaxInterval
  rw [hr]
  by_cases h : d > c
  · simp only [if_pos h]
    exact ⟨le_refl c, fun h2 => absurd h (not_lt.mpr h2), (min_eq_right (le_of_lt h)).symm⟩
  · simp only [if_neg h]
    exact ⟨not_lt.mp h, fun _ => trivial, (min_eq_left (not_lt.mp h)).symm⟩

/-- A wrapped function returning 7 ns under the ceiling 5 ns: the result is 5. -/
theorem MaxInterval_clamps_to_ceiling_witness :
    (MaxInterval 5 sevenWithError ()).1.1 ≤ 5
      ∧ ((7 : Duration) ≤ 5 → (MaxInterval 5 sevenWithError ()).1.1 = 7)
      ∧ (MaxInterval 5 sevenWithError ()).1.1 = min 7 5 :=
  MaxInterval_clamps_to_ceiling 5 sevenWithError () () 7 (fmtErrorf 3 "late") rfl

/-- C7: when the call that `MinInterval` makes to the wrapped function returns
the duration d, the duration `MinInterval` returns with floor c is never below
c, equals d whenever d >= c, and is max(d, c). -/
theorem MinInterval_clamps_to_floor {σ : Type} (c : Duration) (r : RetryWait σ) (s s1 : σ)
    (d : Duration) (err : error) (hr : r (toUint c) s = ((d, err), s1)) :
    c ≤ (MinInterval c r s).1.1
      ∧ (c ≤ d → (MinInterval c r s).1.1 = d)
      ∧ (MinInterval c r s).1.1 = max d c := by
  unfold MinInterval
  rw [hr]
  by_cases h : d < c
  · simp only [if_pos h]
    exact ⟨le_refl c, fun h2 => absurd h (not_lt.mpr h2), (max_eq_right (le_of_lt h)).symm⟩
  · simp only [if_neg h]
    exact ⟨not_lt.mp h, fun _ => trivial, (max_eq_left (not_lt.mp h)).symm⟩

/-- A wrapped function returning 7 ns over the floor 9 ns: the result is 9. -/
theorem MinInterval_clamps_to_floor_witness :
    (9 : Duration) ≤ (MinInterval 9 sevenWithError ()).1.1
      ∧ ((9 : Duration) ≤ 7 → (MinInterval 9 sevenWithError ()).1.1 = 7)
      ∧ (MinInterval 9 sevenWithError ()).1.1 = max 7 9 :=
  MinInterval_clamps_to_floor 9 sevenWithError () () 7 (fmtErrorf 3 "late") rfl

/-- C8: when the wrapped function returns (d, err), `MaxInterval` and
`MinInterval` both return exactly err as their error, for every bound, whether
the duration was clamped or not. -/
theorem MaxInterval_MinInterval_keep_error {σ : Type} (c : Duration) (r : RetryWait σ)
    (s s1 : σ) (d : Duration) (err : error) (hr : r (toUint c) s = ((d, err), s1)) :
    (MaxInterval c r s).1.2 = err ∧ (MinInterval c r s).1.2 = err := by
  unfold MaxInterval MinInterval
  rw [hr]
  constructor
  · by_cases h : d > c <;> simp [h]
  · by_cases h : d < c <;> simp [h]

/-- A non-nil error comes back unchanged from a clamping `MaxInterval` and from a
`MinInterval` that does not clamp. -/
theorem MaxInterval_MinInterval_keep_error_witness :
    (MaxInterval 5 sevenWithError ()).1.2 = fmtErrorf 3 "late"
      ∧ (MinInterval 5 sevenWithError ()).1.2 = fmtErrorf 3 "late" :=
  MaxInterval_MinInterval_keep_error 5 sevenWithError () () 7 (fmtErrorf 3 "late") rfl

/-- C9, on the code: the type assertion in `RetryExhausted` reads only the
dynamic type of its argument, so whatever type the name stands for it answers
the same on the sentinel and on any other error built by `fmt.Errorf`; it
answers false on nil, and false on the sentinel when no dynamic type satisfies
the asserted one. -/
theorem RetryExhausted_same_on_errorStrings (T : GoType → Bool) :
    RetryExhausted T RetryExhaustedError = RetryExhausted T (fmtErrorf 1 "boom")
      ∧ fmtErrorf 1 "boom" ≠ RetryExhaustedError
      ∧ RetryExhausted T none = false
      ∧ RetryExhausted (fun _ => false) RetryExhaustedError = false :=
  ⟨rfl, by decide, rfl, rfl⟩

/-- C10, as stated, fails on overflow: 2 times a unit of 2^62 ns is 2^63 ns,
which `time.Duration` wraps to -2^63 ns. -/
theorem LinearBackoff_overflows :
    LinearBackoff 2 4611686018427387904 = (-9223372036854775808, none)
      ∧ LinearBackoff 2 4611686018427387904 ≠ ((2 : Int) * 4611686018427387904, none) := by
  decide

/-- C10, amended: whenever the product i * unit lies in the range of
`time.Duration` (signed 64 bits), `LinearBackoff i unit` is exactly i * unit
with a nil error; at i = 0 the duration is 0 for every unit. -/
theorem LinearBackoff_exact_in_range (i : Nat) (unit : Duration)
    (hlo : -2 ^ 63 ≤ (i : Int) * unit) (hhi : (i : Int) * unit < 2 ^ 63) :
    LinearBackoff i unit = ((i : Int) * unit, none)
      ∧ LinearBackoff 0 unit = (0, none) := by
  constructor
  · unfold LinearBackoff
    rw [wrapInt64_mul_wrapInt64, wrapInt64_eq_self hlo hhi]
  · unfold LinearBackoff
    rw [wrapInt64_mul_wrapInt64]
    simp [wrapInt64]

/-- Three attempts in, with the unit one second: 3 s. -/
theorem LinearBackoff_exact_in_range_witness :
    LinearBackoff 3 Second = (3000000000, none) ∧ LinearBackoff 0 Second = (0, none) :=
  LinearBackoff_exact_in_range 3 Second (by decide) (by decide)

/-! ## Further lemmas: bounds of the conversions -/

theorem wrapInt64_lt (x : Int) : wrapInt64 x < 2 ^ 63 := by
  unfold wrapInt64
  have := Int.emod_lt_of_pos (x + 2 ^ 63) (show (0 : Int) < 2 ^ 64 by norm_num)
  omega

theorem wrapInt64_ge (x : Int) : -2 ^ 63 ≤ wrapInt64 x := by
  unfold wrapInt64
  have := Int.emod_nonneg (x + 2 ^ 63) (show (2 : Int) ^ 64 ≠ 0 by norm_num)
  omega

/-! ## Further lemmas: the loop, pass by pass -/

theorem DoFrom_succ {σ : Type} (sleep : Duration → σ → σ) (fuel i : Nat) (r : Retrier σ)
    (s : σ) :
    Retrier.DoFrom sleep (fuel + 1) i r s
      = match Retrier.pass sleep i r s with
        | Sum.inl out => some out
        | Sum.inr st => Retrier.DoFrom sleep fuel st.1 st.2.1 st.2.2 := by
  rcases hw : r.waitF i s with ⟨⟨d, err⟩, s1⟩
  by_cases he : err.isSome = true
  · simp [Retrier.DoFrom, Retrier.pass, hw, he]
  · rcases hf : r.f i (sleep d s1) with ⟨⟨done, err2⟩, s2⟩
    cases done <;> simp [Retrier.DoFrom, Retrier.pass, hw, he, hf]

theorem terminal_eq_false_iff (w : Nat → Duration × error) (f : Nat → Bool × error) (j : Nat) :
    terminal w f j = false ↔ (w j).2 = none ∧ (f j).1 = false := by
  unfold terminal
  cases h1 : (w j).2 <;> cases h2 : (f j).1 <;> simp

theorem pass_observed_waitErr (w : Nat → Duration × error) (f : Nat → Bool × error)
    (i : Nat) (L : List error) (tr : List Event) (ev : ErrorValue) (h : (w i).2 = some ev) :
    Retrier.pass observedSleep i (observedDriver w f L) tr
      = Sum.inl (some ev, observedDriver w f L, tr ++ [Event.waitCall i]) := by
  rcases hw : w i with ⟨d, err⟩
  rw [hw] at h
  simp only at h
  subst h
  simp [Retrier.pass, observedDriver, observedWait, observed, hw]

theorem pass_observed_done (w : Nat → Duration × error) (f : Nat → Bool × error)
    (i : Nat) (L : List error) (tr : List Event) (h : (w i).2 = none) (hd : (f i).1 = true) :
    Retrier.pass observedSleep i (observedDriver w f L) tr
      = Sum.inl ((f i).2, observedDriver w f (L ++ [(f i).2]),
          tr ++ [Event.waitCall i, Event.slept (w i).1, Event.opCall i]) := by
  rcases hw : w i with ⟨d, err⟩
  rw [hw] at h
  simp only at h
  subst h
  rcases hf : f i with ⟨done, err2⟩
  rw [hf] at hd
  simp only at hd
  subst hd
  simp [Retrier.pass, observedDriver, observedWait, observedOp, observed, observedSleep, hw, hf]

theorem pass_observed_go (w : Nat → Duration × error) (f : Nat → Bool × error)
    (i : Nat) (L : List error) (tr : List Event) (h : (w i).2 = none) (hd : (f i).1 = false) :
    Retrier.pass observedSleep i (observedDriver w f L) tr
      = Sum.inr ((i + 1) % uintSize, observedDriver w f (L ++ [(f i).2]),
          tr ++ [Event.waitCall i, Event.slept (w i).1, Event.opCall i]) := by
  rcases hw : w i with ⟨d, err⟩
  rw [hw] at h
  simp only at h
  subst h
  rcases hf : f i with ⟨done, err2⟩
  rw [hf] at hd
  simp only at hd
  subst hd
  simp [Retrier.pass, observedDriver, observedWait, observedOp, observed, observedSleep, hw, hf]

/-- A loop whose wait policy does not fail and whose operation does not report
done at any index below `uintSize` does not return, whatever the fuel. -/
theorem DoFrom_none_of_never_below {σ : Type} (sleep : Duration → σ → σ) (W : RetryWait σ)
    (F : Retryable σ) (hW : ∀ i, i < uintSize → ∀ s, (W i s).1.2 = none)
    (hF : ∀ i, i < uintSize → ∀ s, (F i s).1.1 = false) :
    ∀ (fuel i : Nat) (L : List error) (s : σ), i < uintSize →
      Retrier.DoFrom sleep fuel i { waitF := W, f := F, errors := L } s = none := by
  intro fuel
  induction fuel with
  | zero => intro i L s _; rfl
  | succ fuel ih =>
    intro i L s hi
    have h1 := hW i hi s
    rcases hWi : W i s with ⟨⟨d, err⟩, s1⟩
    rw [hWi] at h1
    simp only at h1
    subst h1
    have h2 := hF i hi (sleep d s1)
    rcases hFi : F i (sleep d s1) with ⟨⟨done, err2⟩, s2⟩
    rw [hFi] at h2
    simp only at h2
    subst h2
    rw [DoFrom_pass sleep fuel i _ s s1 s2 d err2 hWi hFi]
    exact ih _ _ _ (Nat.mod_lt _ uintSize_pos)

theorem passes_concat (w : Nat → Duration × error) (i k : Nat) :
    passes w i (k + 1)
      = passes w i k
          ++ [Event.waitCall (i + k), Event.slept (w (i + k)).1, Event.opCall (i + k)] := by
  simp [passes, List.range'_concat]

theorem opErrors_concat (f : Nat → Bool × error) (i k : Nat) :
    opErrors f i (k + 1) = opErrors f i k ++ [(f (i + k)).2] := by
  simp [opErrors, List.range'_concat]

/-- Passes over indices that are not terminal, for a driver with any log and any
trace so far. -/
theorem DoFrom_observed_passes (w : Nat → Duration × error) (f : Nat → Bool × error)
    (k i fuel : Nat) (L : List error) (tr : List Event) (hlt : i + k < uintSize)
    (hnt : ∀ j, i ≤ j → j < i + k → terminal w f j = false) :
    Retrier.DoFrom observedSleep (k + fuel) i (observedDriver w f L) tr
      = Retrier.DoFrom observedSleep fuel (i + k) (observedDriver w f (L ++ opErrors f i k))
          (tr ++ passes w i k) :=
  DoFrom_passes (observedWait w) w f k i fuel L tr hlt
    (fun j h1 h2 t =>
      observedWait_of_ok w j ((terminal_eq_false_iff w f j).mp (hnt j h1 h2)).1 t)
    (fun j h1 h2 => ((terminal_eq_false_iff w f j).mp (hnt j h1 h2)).2)

/-- The loop returns the wait policy's error at the first terminal index. -/
theorem DoFrom_first_waitErr (w : Nat → Duration × error) (f : Nat → Bool × error) (n : Nat)
    (ev : ErrorValue) (L : List error) (tr : List Event) (fuel : Nat) (hn : n < uintSize)
    (hnt : ∀ j, j < n → terminal w f j = false) (herr : (w n).2 = some ev) (hfuel : n < fuel) :
    Retrier.DoFrom observedSleep fuel 0 (observedDriver w f L) tr
      = some (some ev, observedDriver w f (L ++ opErrors f 0 n),
          tr ++ passes w 0 n ++ [Event.waitCall n]) := by
  obtain ⟨fuel2, rfl⟩ : ∃ fuel2, fuel = n + (fuel2 + 1) := ⟨fuel - n - 1, by omega⟩
  rw [DoFrom_observed_passes w f n 0 (fuel2 + 1) L tr (by omega)
    (fun j _ h2 => hnt j (by omega)), DoFrom_succ, Nat.zero_add,
    pass_observed_waitErr w f n _ _ ev herr]

/-- The loop returns the operation's error at the first terminal index when the
operation reports done there. -/
theorem DoFrom_first_done (w : Nat → Duration × error) (f : Nat → Bool × error) (n : Nat)
    (L : List error) (tr : List Event) (fuel : Nat) (hn : n < uintSize)
    (hnt : ∀ j, j < n → terminal w f j = false) (hw : (w n).2 = none)
    (hd : (f n).1 = true) (hfuel : n < fuel) :
    Retrier.DoFrom observedSleep fuel 0 (observedDriver w f L) tr
      = some ((f n).2, observedDriver w f (L ++ opErrors f 0 (n + 1)),
          tr ++ passes w 0 (n + 1)) := by
  obtain ⟨fuel2, rfl⟩ : ∃ fuel2, fuel = n + (fuel2 + 1) := ⟨fuel - n - 1, by omega⟩
  rw [DoFrom_observed_passes w f n 0 (fuel2 + 1) L tr (by omega)
    (fun j _ h2 => hnt j (by omega)), DoFrom_succ, Nat.zero_add,
    pass_observed_done w f n _ _ hw hd, passes_concat, opErrors_concat]
  simp [List.append_assoc]

/-- A run that returns has a first terminal index, below `uintSize` and within
the fuel. -/
theorem DoFrom_returns_inv (w : Nat → Duration × error) (f : Nat → Bool × error)
    (fuel : Nat) (L : List error) (tr : List Event)
    (out : error × Retrier (List Event) × List Event)
    (h : Retrier.DoFrom observedSleep fuel 0 (observedDriver w f L) tr = some out) :
    ∃ n, n < uintSize ∧ n < fuel ∧ (∀ j, j < n → terminal w f j = false)
      ∧ terminal w f n = true := by
  by_cases hex : ∃ n, n < uintSize ∧ terminal w f n = true
  · have hspec := Nat.find_spec hex
    have hmin : ∀ j, j < Nat.find hex → terminal w f j = false := by
      intro j hj
      have := Nat.find_min hex hj
      have hj2 : j < uintSize := lt_trans hj hspec.1
      cases ht : terminal w f j
      · rfl
      · exact absurd ⟨hj2, ht⟩ this
    refine ⟨Nat.find hex, hspec.1, ?_, hmin, hspec.2⟩
    by_contra hfuel
    have hle : fuel ≤ Nat.find hex := by omega
    have := DoFrom_observed_passes w f fuel 0 0 L tr (by omega)
      (fun j _ h2 => hmin j (by omega))
    rw [Nat.add_zero, DoFrom_zero] at this
    rw [this] at h
    cases h
  · exfalso
    have hnone : ∀ j, j < uintSize → terminal w f j = false := by
      intro j hj
      cases ht : terminal w f j
      · rfl
      · exact absurd ⟨j, hj, ht⟩ hex
    have := DoFrom_none_of_never_below observedSleep (observedWait w) (observedOp f)
      (fun i hi s => by
        simp [observedWait, observed, ((terminal_eq_false_iff w f i).mp (hnone i hi)).1])
      (fun i hi s => by
        simp [observedOp, observed, ((terminal_eq_false_iff w f i).mp (hnone i hi)).2])
      fuel 0 L tr uintSize_pos
    unfold observedDriver at h
    rw [this] at h
    cases h

/-- What a run that returns has returned: the wait policy's error at the first
terminal index `n`, after the passes `0..n-1` and the wait call `n`, or the
operation's error there, after the passes `0..n`. -/
theorem DoFrom_returns_shape (w : Nat → Duration × error) (f : Nat → Bool × error)
    (fuel : Nat) (L : List error) (tr : List Event)
    (out : error × Retrier (List Event) × List Event)
    (h : Retrier.DoFrom observedSleep fuel 0 (observedDriver w f L) tr = some out) :
    ∃ n, n < uintSize ∧ n < fuel ∧ (∀ j, j < n → terminal w f j = false)
      ∧ ((∃ ev, (w n).2 = some ev
            ∧ out = (some ev, observedDriver w f (L ++ opErrors f 0 n),
                tr ++ passes w 0 n ++ [Event.waitCall n]))
          ∨ ((w n).2 = none ∧ (f n).1 = true
            ∧ out = ((f n).2, observedDriver w f (L ++ opErrors f 0 (n + 1)),
                tr ++ passes w 0 (n + 1)))) := by
  obtain ⟨n, hn, hfuel, hnt, hterm⟩ := DoFrom_returns_inv w f fuel L tr out h
  refine ⟨n, hn, hfuel, hnt, ?_⟩
  cases hw : (w n).2 with
  | some ev =>
    left
    refine ⟨ev, rfl, ?_⟩
    rw [DoFrom_first_waitErr w f n ev L tr fuel hn hnt hw hfuel] at h
    exact (Option.some.inj h).symm
  | none =>
    right
    have hd : (f n).1 = true := by
      unfold terminal at hterm
      rw [hw] at hterm
      simpa using hterm
    refine ⟨rfl, hd, ?_⟩
    rw [DoFrom_first_done w f n L tr fuel hn hnt hw hd hfuel] at h
    exact (Option.some.inj h).symm

/-! ## Further lemmas: projections of a trace -/

theorem sleeps_append (a b : List Event) : sleeps (a ++ b) = sleeps a ++ sleeps b := by
  simp [sleeps, List.filterMap_append]

theorem calls_append (a b : List Event) : calls (a ++ b) = calls a ++ calls b := by
  simp [calls, List.filter_append]

theorem alternating_succ (i k : Nat) :
    alternating i (k + 1) = [Event.waitCall i, Event.opCall i] ++ alternating (i + 1) k := by
  simp [alternating, List.range'_succ]

theorem calls_passes (w : Nat → Duration × error) (k : Nat) :
    ∀ i, calls (passes w i k) = alternating i k := by
  induction k with
  | zero => intro i; rfl
  | succ k ih =>
    intro i
    rw [passes_succ, calls_append, ih (i + 1), alternating_succ]
    rfl

theorem sleeps_passes (w : Nat → Duration × error) (k : Nat) :
    ∀ i, sleeps (passes w i k) = (List.range' i k).map fun j => (w j).1 := by
  induction k with
  | zero => intro i; rfl
  | succ k ih =>
    intro i
    rw [passes_succ, sleeps_append, ih (i + 1), List.range'_succ]
    rfl

theorem passesMod_succ (w : Nat → Duration × error) (i k : Nat) :
    passesMod w i (k + 1)
      = [Event.waitCall (i % uintSize), Event.slept (w (i % uintSize)).1,
          Event.opCall (i % uintSize)] ++ passesMod w (i + 1) k := by
  simp [passesMod, List.range'_succ]

theorem passesMod_congr (w : Nat → Duration × error) (k : Nat) :
    ∀ a b, a % uintSize = b % uintSize → passesMod w a k = passesMod w b k := by
  induction k with
  | zero => intro a b _; rfl
  | succ k ih =>
    intro a b hab
    rw [passesMod_succ, passesMod_succ, hab,
      ih (a + 1) (b + 1) (by rw [Nat.add_mod, hab, ← Nat.add_mod])]

theorem opCalls_passesMod (w : Nat → Duration × error) (k : Nat) :
    ∀ i, opCalls (passesMod w i k) = (List.range' i k).map fun j => j % uintSize := by
  induction k with
  | zero => intro i; rfl
  | succ k ih =>
    intro i
    rw [passesMod_succ, opCalls_append, ih (i + 1), List.range'_succ]
    rfl

theorem passesMod_eq_passes (w : Nat → Duration × error) (k : Nat) :
    ∀ i, i + k ≤ uintSize → passesMod w i k = passes w i k := by
  induction k with
  | zero => intro i _; rfl
  | succ k ih =>
    intro i hi
    rw [passesMod_succ, passes_succ, ih (i + 1) (by omega), Nat.mod_eq_of_lt (by omega)]

/-! ## Further lemmas: the state of the loop after some passes -/

theorem afterPasses_succ {σ : Type} (sleep : Duration → σ → σ) (k i : Nat) (r : Retrier σ)
    (s : σ) :
    Retrier.afterPasses sleep (k + 1) i r s
      = match Retrier.pass sleep i r s with
        | Sum.inl _ => none
        | Sum.inr st => Retrier.afterPasses sleep k st.1 st.2.1 st.2.2 := by
  rw [Retrier.afterPasses]
  rcases Retrier.pass sleep i r s with out | ⟨i2, r2, s2⟩ <;> rfl

theorem map_mod_range'_congr {β : Type} (h : Nat → β) (k : Nat) :
    ∀ a b, a % uintSize = b % uintSize →
      ((List.range' a k).map fun j => h (j % uintSize))
        = (List.range' b k).map fun j => h (j % uintSize) := by
  induction k with
  | zero => intro a b _; rfl
  | succ k ih =>
    intro a b hab
    rw [List.range'_succ, List.range'_succ, List.map_cons, List.map_cons, hab,
      ih (a + 1) (b + 1) (by rw [Nat.add_mod, hab, ← Nat.add_mod])]

/-- When no index is terminal, the loop is still running after any number of
passes; its counter, log and trace are those of the indices taken modulo
`uintSize`. -/
theorem afterPasses_observed_never (w : Nat → Duration × error) (f : Nat → Bool × error)
    (hnt : ∀ j, j < uintSize → terminal w f j = false) (k : Nat) :
    ∀ (i : Nat) (L : List error) (tr : List Event), i < uintSize →
      Retrier.afterPasses observedSleep k i (observedDriver w f L) tr
        = some ((i + k) % uintSize,
            observedDriver w f (L ++ (List.range' i k).map fun j => (f (j % uintSize)).2),
            tr ++ passesMod w i k) := by
  induction k with
  | zero =>
    intro i L tr hi
    simp [Retrier.afterPasses, passesMod, Nat.mod_eq_of_lt hi]
  | succ k ih =>
    intro i L tr hi
    have hi2 := (terminal_eq_false_iff w f i).mp (hnt i hi)
    rw [afterPasses_succ, pass_observed_go w f i L tr hi2.1 hi2.2]
    simp only
    rw [ih ((i + 1) % uintSize) _ _ (Nat.mod_lt _ uintSize_pos),
      map_mod_range'_congr (fun j => (f j).2) k ((i + 1) % uintSize) (i + 1)
        (Nat.mod_mod _ _),
      passesMod_congr w k ((i + 1) % uintSize) (i + 1) (Nat.mod_mod _ _),
      passesMod_succ, List.range'_succ, List.map_cons, Nat.mod_eq_of_lt hi,
      Nat.mod_add_mod]
    have e1 : i + 1 + k = i + (k + 1) := by omega
    simp [e1, List.append_assoc]

/-- Passes over indices that are not terminal, up to the last index: the loop
is still running, and its trace is that of the passes. -/
theorem afterPasses_observed_initial (w : Nat → Duration × error) (f : Nat → Bool × error)
    (k : Nat) :
    ∀ (i : Nat) (L : List error) (tr : List Event), i < uintSize → i + k ≤ uintSize →
      (∀ j, i ≤ j → j < i + k → terminal w f j = false) →
      Retrier.afterPasses observedSleep k i (observedDriver w f L) tr
        = some ((i + k) % uintSize, observedDriver w f (L ++ opErrors f i k),
            tr ++ passes w i k) := by
  induction k with
  | zero =>
    intro i L tr hi _ _
    simp [Retrier.afterPasses, passes, opErrors, Nat.mod_eq_of_lt hi]
  | succ k ih =>
    intro i L tr hi hik hnt
    have hi2 := (terminal_eq_false_iff w f i).mp (hnt i (le_refl i) (by omega))
    rw [afterPasses_succ, pass_observed_go w f i L tr hi2.1 hi2.2]
    simp only
    have e1 : i + 1 + k = i + (k + 1) := by omega
    by_cases hlast : i + 1 < uintSize
    · rw [Nat.mod_eq_of_lt hlast, ih (i + 1) _ _ hlast (by omega)
        (fun j h1 h2 => hnt j (by omega) (by omega)), opErrors_succ, passes_succ]
      simp [e1, List.append_assoc]
    · have hk : k = 0 := by omega
      subst hk
      have hN : i + 1 = uintSize := by omega
      simp [Retrier.afterPasses, hN, opErrors, passes]

/-! ## Further lemmas: what every pass keeps -/

/-- A run that returns, from any counter, log and trace, has extended the trace
by events `a` and the log by the operation's error of each operation call in
`a`, and has slept once per operation call, for the duration the wait policy
returned at that index. -/
theorem DoFrom_observed_frame (w : Nat → Duration × error) (f : Nat → Bool × error) :
    ∀ (fuel i : Nat) (L : List error) (tr : List Event)
      (out : error × Retrier (List Event) × List Event),
      Retrier.DoFrom observedSleep fuel i (observedDriver w f L) tr = some out →
      ∃ a, out.2.2 = tr ++ a
        ∧ out.2.1 = observedDriver w f (L ++ (opCalls a).map fun j => (f j).2)
        ∧ sleeps a = (opCalls a).map fun j => (w j).1 := by
  intro fuel
  induction fuel with
  | zero =>
    intro i L tr out h
    rw [DoFrom_zero] at h
    cases h
  | succ fuel ih =>
    intro i L tr out h
    rw [DoFrom_succ] at h
    cases hw : (w i).2 with
    | some ev =>
      rw [pass_observed_waitErr w f i L tr ev hw] at h
      cases h
      exact ⟨[Event.waitCall i], rfl, by simp [opCalls], by simp [opCalls, sleeps]⟩
    | none =>
      cases hd : (f i).1 with
      | true =>
        rw [pass_observed_done w f i L tr hw hd] at h
        cases h
        exact ⟨[Event.waitCall i, Event.slept (w i).1, Event.opCall i], rfl,
          by simp [opCalls], by simp [opCalls, sleeps]⟩
      | false =>
        rw [pass_observed_go w f i L tr hw hd] at h
        obtain ⟨a, h1, h2, h3⟩ := ih _ _ _ _ h
        refine ⟨[Event.waitCall i, Event.slept (w i).1, Event.opCall i] ++ a, ?_, ?_, ?_⟩
        · rw [h1, List.append_assoc]
        · rw [h2, opCalls_append]
          simp [opCalls, List.append_assoc]
        · rw [sleeps_append, opCalls_append, List.map_append, ← h3]
          simp [opCalls, sleeps]

/-- The same for the state of a loop that is still running after `k` passes. -/
theorem afterPasses_observed_frame (w : Nat → Duration × error) (f : Nat → Bool × error) :
    ∀ (k i : Nat) (L : List error) (tr : List Event)
      (st : Nat × Retrier (List Event) × List Event),
      Retrier.afterPasses observedSleep k i (observedDriver w f L) tr = some st →
      ∃ a, st.2.2 = tr ++ a
        ∧ st.2.1 = observedDriver w f (L ++ (opCalls a).map fun j => (f j).2)
        ∧ sleeps a = (opCalls a).map fun j => (w j).1 := by
  intro k
  induction k with
  | zero =>
    intro i L tr st h
    simp only [Retrier.afterPasses, Option.some.injEq] at h
    subst h
    exact ⟨[], by simp, by simp [opCalls], by simp [opCalls, sleeps]⟩
  | succ k ih =>
    intro i L tr st h
    rw [afterPasses_succ] at h
    cases hw : (w i).2 with
    | some ev =>
      rw [pass_observed_waitErr w f i L tr ev hw] at h
      cases h
    | none =>
      cases hd : (f i).1 with
      | true =>
        rw [pass_observed_done w f i L tr hw hd] at h
        cases h
      | false =>
        rw [pass_observed_go w f i L tr hw hd] at h
        obtain ⟨a, h1, h2, h3⟩ := ih _ _ _ _ h
        refine ⟨[Event.waitCall i, Event.slept (w i).1, Event.opCall i] ++ a, ?_, ?_, ?_⟩
        · rw [h1, List.append_assoc]
        · rw [h2, opCalls_append]
          simp [opCalls, List.append_assoc]
        · rw [sleeps_append, opCalls_append, List.map_append, ← h3]
          simp [opCalls, sleeps]

/-! ## Further lemmas: the exponential policy -/

theorem pow2Duration_of_lt (outOfRange : Nat → Int) (i : Nat) (hi : i < 63) :
    pow2Duration outOfRange i = 2 ^ i := by
  simp [pow2Duration, hi]

theorem two_pow_mul_Second_le (i : Nat) (hi : i ≤ 33) :
    (2 : Int) ^ i * Second ≤ 2 ^ 33 * Second := by
  have h : (2 : Int) ^ i ≤ 2 ^ 33 := pow_le_pow_right₀ (by norm_num) hi
  exact mul_le_mul_of_nonneg_right h (by decide)

theorem two_pow_mul_Second_ge (i : Nat) (hi : 34 ≤ i) :
    (2 : Int) ^ 34 * Second ≤ 2 ^ i * Second := by
  have h : (2 : Int) ^ 34 ≤ 2 ^ i := pow_le_pow_right₀ (by norm_num) hi
  exact mul_le_mul_of_nonneg_right h (by decide)

theorem ExponentialBackoff_of_le (outOfRange : Nat → Int) (i : Nat) (hi : i ≤ 33) :
    ExponentialBackoff outOfRange i = (2 ^ i * Second, none) := by
  unfold ExponentialBackoff
  rw [pow2Duration_of_lt outOfRange i (by omega)]
  have h1 := two_pow_mul_Second_le i hi
  have h2 : (0 : Int) ≤ 2 ^ i * Second := mul_nonneg (by positivity) (by decide)
  have h3 : (2 : Int) ^ 33 * Second < 2 ^ 63 := by decide
  rw [wrapInt64_eq_self (le_trans (by norm_num) h2) (lt_of_le_of_lt h1 h3)]

theorem ExponentialBackoff_ne_of_ge (outOfRange : Nat → Int) (i : Nat) (hi : 34 ≤ i) :
    (ExponentialBackoff outOfRange i).1 ≠ 2 ^ i * Second := by
  intro h
  have h1 := two_pow_mul_Second_ge i hi
  have h2 : (ExponentialBackoff outOfRange i).1 < 2 ^ 63 := wrapInt64_lt _
  have h3 : (2 : Int) ^ 63 < 2 ^ 34 * Second := by decide
  rw [h] at h2
  exact absurd (lt_of_le_of_lt h1 h2) (not_lt.mpr (le_of_lt h3))

/-! ## The specification, checked: C11 to C20 -/

/-- C11, as stated, fails from index 34 on: 2^34 s is more than an `int64`
holds, and the product wraps to a negative duration. -/
theorem ExponentialBackoff_overflows_at_34 :
    (ExponentialBackoff indefinite 34).1 = -1266874889709551616
      ∧ (ExponentialBackoff indefinite 34).1 ≠ 2 ^ 34 * Second := by
  decide

/-- C11, amended: for every attempt index i <= 33, `ExponentialBackoff` returns
the duration 2^i seconds with a nil error; at every index its error is nil. -/
theorem ExponentialBackoff_exact_up_to_33 (outOfRange : Nat → Int) (i : Nat) (hi : i ≤ 33) :
    ExponentialBackoff outOfRange i = (2 ^ i * Second, none)
      ∧ ∀ j, (ExponentialBackoff outOfRange j).2 = none :=
  ⟨ExponentialBackoff_of_le outOfRange i hi, fun _ => rfl⟩

/-- The fourth attempt waits 8 s. -/
theorem ExponentialBackoff_exact_up_to_33_witness :
    ExponentialBackoff indefinite 3 = (2 ^ 3 * Second, none)
      ∧ ∀ j, (ExponentialBackoff indefinite j).2 = none :=
  ExponentialBackoff_exact_up_to_33 indefinite 3 (by decide)

/-- C12, as stated, fails between the indices 33 and 34: the duration at 34 has
wrapped and is below the duration at 33. -/
theorem ExponentialBackoff_not_increasing_at_34 :
    ¬ (ExponentialBackoff indefinite 33).1 < (ExponentialBackoff indefinite 34).1 := by
  decide

/-- C12, amended: `ExponentialBackoff` is strictly increasing up to index 33:
for i < j <= 33 the duration at i is strictly less than the duration at j. -/
theorem ExponentialBackoff_increasing_up_to_33 (outOfRange : Nat → Int) (i j : Nat)
    (hij : i < j) (hj : j ≤ 33) :
    (ExponentialBackoff outOfRange i).1 < (ExponentialBackoff outOfRange j).1 := by
  rw [ExponentialBackoff_of_le outOfRange i (by omega), ExponentialBackoff_of_le outOfRange j hj]
  have h : (2 : Int) ^ i < 2 ^ j := pow_lt_pow_right₀ (by norm_num) hij
  exact mul_lt_mul_of_pos_right h (by decide)

/-- The durations at the indices 32 and 33. -/
theorem ExponentialBackoff_increasing_up_to_33_witness :
    (ExponentialBackoff indefinite 32).1 < (ExponentialBackoff indefinite 33).1 :=
  ExponentialBackoff_increasing_up_to_33 indefinite 32 33 (by decide) (by decide)

/-- C19: the value 2^i * 10^9 ns fits a signed 64-bit duration exactly for the
indices i <= 33, and `ExponentialBackoff` returns that value exactly for those
indices: from index 34 on the value exceeds 2^63 - 1 and the returned duration
is another one. -/
theorem ExponentialBackoff_fits_iff (outOfRange : Nat → Int) (i : Nat) :
    ((2 : Int) ^ i * Second ≤ 2 ^ 63 - 1 ↔ i ≤ 33)
      ∧ ((34 ≤ i ↔ (2 : Int) ^ 63 - 1 < 2 ^ i * Second))
      ∧ ((ExponentialBackoff outOfRange i).1 = 2 ^ i * Second ↔ i ≤ 33) := by
  have hsmall : i ≤ 33 → (2 : Int) ^ i * Second ≤ 2 ^ 63 - 1 := fun hi =>
    le_trans (two_pow_mul_Second_le i hi) (by decide)
  have hbig : 34 ≤ i → (2 : Int) ^ 63 - 1 < 2 ^ i * Second := fun hi =>
    lt_of_lt_of_le (by decide) (two_pow_mul_Second_ge i hi)
  refine ⟨⟨fun h => ?_, hsmall⟩, ⟨hbig, fun h => ?_⟩, ⟨fun h => ?_, fun hi => ?_⟩⟩
  · by_contra hi
    exact absurd h (not_le.mpr (hbig (by omega)))
  · by_contra hi
    exact absurd h (not_lt.mpr (hsmall (by omega)))
  · by_contra hi
    exact ExponentialBackoff_ne_of_ge outOfRange i (by omega) h
  · rw [ExponentialBackoff_of_le outOfRange i hi]

theorem observedRun_eq (w : Nat → Duration × error) (f : Nat → Bool × error) (fuel : Nat) :
    observedRun w f fuel
      = summary (Retrier.DoFrom observedSleep fuel 0 (observedDriver w f []) []) := rfl

theorem observedAfter_eq (w : Nat → Duration × error) (f : Nat → Bool × error) (k : Nat) :
    observedAfter w f k
      = (Retrier.afterPasses observedSleep k 0 (observedDriver w f []) []).map
          fun st => (st.1, st.2.1.errors, st.2.2) := rfl

theorem summary_eq_some {σ : Type} (o : Option (error × Retrier σ × σ))
    (out : error × List error × σ) (h : summary o = some out) :
    ∃ t, o = some t ∧ out = (t.1, t.2.1.errors, t.2.2) := by
  cases o with
  | none => cases h
  | some t => exact ⟨t, rfl, (Option.some.inj h).symm⟩

/-- The loop state after `k <= uintSize` passes over indices that are not
terminal. -/
theorem observedAfter_initial (w : Nat → Duration × error) (f : Nat → Bool × error) (k : Nat)
    (hk : k ≤ uintSize) (hnt : ∀ j, j < k → terminal w f j = false) :
    observedAfter w f k = some (k % uintSize, opErrors f 0 k, passes w 0 k) := by
  rw [observedAfter_eq, afterPasses_observed_initial w f k 0 [] [] uintSize_pos (by omega)
    (fun j _ hj => hnt j (by omega)), Nat.zero_add]
  rfl

/-- The loop state after any number of passes when no index is terminal. -/
theorem observedAfter_never (w : Nat → Duration × error) (f : Nat → Bool × error) (k : Nat)
    (hnt : ∀ j, j < uintSize → terminal w f j = false) :
    observedAfter w f k
      = some (k % uintSize, (List.range' 0 k).map (fun j => (f (j % uintSize)).2),
          passesMod w 0 k) := by
  rw [observedAfter_eq, afterPasses_observed_never w f hnt k 0 [] [] uintSize_pos,
    Nat.zero_add]
  rfl

theorem exists_first_terminal (w : Nat → Duration × error) (f : Nat → Bool × error) (n : Nat)
    (h : terminal w f n = true) :
    ∃ n0, n0 ≤ n ∧ terminal w f n0 = true ∧ ∀ j, j < n0 → terminal w f j = false := by
  have hex : ∃ m, terminal w f m = true := ⟨n, h⟩
  refine ⟨Nat.find hex, Nat.find_min' hex h, Nat.find_spec hex, ?_⟩
  intro j hj
  have := Nat.find_min hex hj
  cases ht : terminal w f j
  · rfl
  · exact absurd ht this

/-- C13: in every run of `Do` that returns, the calls made to the wait policy and
the operation are w(0), f(0), w(1), f(1), ..., ending with f(n) or with w(n):
the indices start at 0 and increase by one per pass, the wait policy is called
first and the operation then with the same index, so the operation is never
called with an index the wait policy was not called with just before.  The same
holds of the first k passes of a run in which none of them returns, for every k
whose indices 0..k-1 are values of the index type `uint` (k <= 2^64). -/
theorem Do_calls_alternate (w : Nat → Duration × error) (f : Nat → Bool × error) :
    (∀ fuel out, observedRun w f fuel = some out →
        ∃ n, n < uintSize
          ∧ (calls out.2.2 = alternating 0 (n + 1)
            ∨ calls out.2.2 = alternating 0 n ++ [Event.waitCall n]))
      ∧ (∀ k, k ≤ uintSize → (∀ j, j < k → (w j).2 = none ∧ (f j).1 = false) →
          (observedAfter w f k).map (fun st => calls st.2.2) = some (alternating 0 k)) := by
  constructor
  · intro fuel out h
    rw [observedRun_eq] at h
    obtain ⟨t, ht, rfl⟩ := summary_eq_some _ _ h
    obtain ⟨n, hn, _, _, hcase⟩ := DoFrom_returns_shape w f fuel [] [] t ht
    refine ⟨n, hn, ?_⟩
    rcases hcase with ⟨ev, _, rfl⟩ | ⟨_, _, rfl⟩
    · right
      simp [calls_append, calls_passes]
      rfl
    · left
      simp [calls_passes]
  · intro k hk hnt
    rw [observedAfter_initial w f k hk
      (fun j hj => (terminal_eq_false_iff w f j).mpr (hnt j hj)), Option.map_some',
      calls_passes]

/-- A wait policy failing at index 2: the calls are w(0), f(0), w(1), f(1), w(2). -/
theorem Do_calls_alternate_witness :
    ∃ n, n < uintSize
      ∧ (calls (passes waitFailsAtTwo 0 2 ++ [Event.waitCall 2]) = alternating 0 (n + 1)
        ∨ calls (passes waitFailsAtTwo 0 2 ++ [Event.waitCall 2])
            = alternating 0 n ++ [Event.waitCall n]) :=
  (Do_calls_alternate waitFailsAtTwo neverDone).1 3
    (fmtErrorf 9 "policy failed", [fmtErrorf 1 "failed", fmtErrorf 2 "failed"],
      passes waitFailsAtTwo 0 2 ++ [Event.waitCall 2])
    (by decide)

/-- C14: when the wait policy returns an error or the operation reports done at
some index n, there is a smallest such index n0 <= n, and `Do`, given fuel for
n0+1 passes, returns: the wait policy has been called with 0..n0 and nothing
beyond, the operation with 0..n0-1 or 0..n0. -/
theorem Do_returns_at_first_terminal (w : Nat → Duration × error) (f : Nat → Bool × error)
    (n : Nat) (hn : n < uintSize) (hterm : (w n).2 ≠ none ∨ (f n).1 = true) :
    ∃ n0, n0 ≤ n ∧ ((w n0).2 ≠ none ∨ (f n0).1 = true)
      ∧ (∀ j, j < n0 → (w j).2 = none ∧ (f j).1 = false)
      ∧ ∀ fuel, n0 < fuel →
          ∃ out, observedRun w f fuel = some out
            ∧ waitCalls out.2.2 = List.range (n0 + 1)
            ∧ (opCalls out.2.2 = List.range n0 ∨ opCalls out.2.2 = List.range (n0 + 1)) := by
  have hn2 : terminal w f n = true := by
    unfold terminal
    rcases hterm with h | h
    · cases hw : (w n).2 with
      | none => exact absurd hw h
      | some ev => rfl
    · simp [h]
  obtain ⟨n0, hle, hspec, hmin⟩ := exists_first_terminal w f n hn2
  have hN : n0 < uintSize := lt_of_le_of_lt hle hn
  refine ⟨n0, hle, ?_, fun j hj => (terminal_eq_false_iff w f j).mp (hmin j hj), ?_⟩
  · cases hw : (w n0).2 with
    | none =>
      right
      unfold terminal at hspec
      rw [hw] at hspec
      simpa using hspec
    | some ev =>
      left
      simp
  · intro fuel hfuel
    rw [observedRun_eq]
    cases hw : (w n0).2 with
    | some ev =>
      rw [DoFrom_first_waitErr w f _ ev [] [] fuel hN hmin hw hfuel]
      refine ⟨_, rfl, ?_, ?_⟩
      · show waitCalls ([] ++ passes w 0 n0 ++ [Event.waitCall n0]) = _
        rw [List.nil_append, waitCalls_append, waitCalls_passes, List.range_eq_range',
          List.range'_concat]
        simp [waitCalls]
      · left
        show opCalls ([] ++ passes w 0 n0 ++ [Event.waitCall n0]) = _
        rw [List.nil_append, opCalls_append, opCalls_passes, List.range_eq_range']
        simp [opCalls]
    | none =>
      have hd : (f n0).1 = true := by
        unfold terminal at hspec
        rw [hw] at hspec
        simpa using hspec
      rw [DoFrom_first_done w f _ [] [] fuel hN hmin hw hd hfuel]
      refine ⟨_, rfl, ?_, ?_⟩
      · show waitCalls ([] ++ passes w 0 (n0 + 1)) = _
        rw [List.nil_append, waitCalls_passes, List.range_eq_range']
      · right
        show opCalls ([] ++ passes w 0 (n0 + 1)) = _
        rw [List.nil_append, opCalls_passes, List.range_eq_range']

/-- A wait policy failing at index 2: the smallest terminal index is found at or
below 2 and `Do` returns there. -/
theorem Do_returns_at_first_terminal_witness :
    ∃ n0, n0 ≤ 2 ∧ ((waitFailsAtTwo n0).2 ≠ none ∨ (neverDone n0).1 = true)
      ∧ (∀ j, j < n0 → (waitFailsAtTwo j).2 = none ∧ (neverDone j).1 = false)
      ∧ ∀ fuel, n0 < fuel →
          ∃ out, observedRun waitFailsAtTwo neverDone fuel = some out
            ∧ waitCalls out.2.2 = List.range (n0 + 1)
            ∧ (opCalls out.2.2 = List.range n0 ∨ opCalls out.2.2 = List.range (n0 + 1)) :=
  Do_returns_at_first_terminal waitFailsAtTwo neverDone 2 (by decide) (Or.inl (by decide))

/-- C15, on the code: `MaxInterval` and `MinInterval` call the wrapped function
exactly once, and the argument of that call is their first parameter, the
ceiling or the floor, converted to `uint`; neither has an attempt index.  With
the ceiling 5 ns the linear policy is called with the index 5. -/
theorem MaxInterval_MinInterval_call_with_bound (c : Duration) (w : Nat → Duration × error)
    (tr : List Event) :
    (MaxInterval c (observedWait w) tr).2 = tr ++ [Event.waitCall (toUint c)]
      ∧ (MinInterval c (observedWait w) tr).2 = tr ++ [Event.waitCall (toUint c)]
      ∧ MaxInterval 5 linearSecondWait [] = ((5, none), [Event.waitCall 5])
      ∧ MinInterval 5 linearSecondWait [] = ((5000000000, none), [Event.waitCall 5]) := by
  refine ⟨?_, ?_, by decide, by decide⟩
  · unfold MaxInterval
    rcases hw : observedWait w (toUint c) tr with ⟨⟨d, err⟩, s1⟩
    have h2 : s1 = tr ++ [Event.waitCall (toUint c)] := by
      simp [observedWait, observed] at hw
      exact hw.2.symm
    by_cases h : d > c <;> simp [h, h2]
  · unfold MinInterval
    rcases hw : observedWait w (toUint c) tr with ⟨⟨d, err⟩, s1⟩
    have h2 : s1 = tr ++ [Event.waitCall (toUint c)] := by
      simp [observedWait, observed] at hw
      exact hw.2.symm
    by_cases h : d < c <;> simp [h, h2]

/-- C16: in every run of `Do` that returns, the sleeps are exactly the durations
the wait policy returned at the indices the operation was called with, one per
operation call, so that operation calls 0..n come with the sleeps
w(0), ..., w(n); each sleep stands between the wait call and the operation call
of its index, and a wait call that returned an error is followed by no sleep.
The sleeps of a loop that is still running after k passes are the same function
of its operation calls. -/
theorem Do_sleeps_follow_wait_policy (w : Nat → Duration × error) (f : Nat → Bool × error) :
    (∀ fuel out, observedRun w f fuel = some out →
        sleeps out.2.2 = (opCalls out.2.2).map (fun i => (w i).1)
          ∧ (∀ n, opCalls out.2.2 = List.range (n + 1) →
              sleeps out.2.2 = (List.range (n + 1)).map fun i => (w i).1)
          ∧ ∃ n, out.2.2 = passes w 0 (n + 1)
              ∨ ((w n).2 ≠ none ∧ out.2.2 = passes w 0 n ++ [Event.waitCall n]))
      ∧ (∀ k st, observedAfter w f k = some st →
          sleeps st.2.2 = (opCalls st.2.2).map fun i => (w i).1) := by
  constructor
  · intro fuel out h
    rw [observedRun_eq] at h
    obtain ⟨t, ht, rfl⟩ := summary_eq_some _ _ h
    obtain ⟨a, h1, _, h3⟩ := DoFrom_observed_frame w f fuel 0 [] [] t ht
    have hs : sleeps t.2.2 = (opCalls t.2.2).map (fun i => (w i).1) := by
      rw [h1, List.nil_append]
      exact h3
    refine ⟨hs, fun n hn => ?_, ?_⟩
    · show sleeps t.2.2 = _
      rw [hs, hn]
    · obtain ⟨n, _, _, _, hcase⟩ := DoFrom_returns_shape w f fuel [] [] t ht
      refine ⟨n, ?_⟩
      rcases hcase with ⟨ev, hev, rfl⟩ | ⟨_, _, rfl⟩
      · right
        exact ⟨by rw [hev]; simp, by simp⟩
      · left
        simp
  · intro k st h
    rw [observedAfter_eq] at h
    cases hp : Retrier.afterPasses observedSleep k 0 (observedDriver w f []) [] with
    | none =>
      rw [hp] at h
      cases h
    | some t =>
      rw [hp] at h
      cases h
      obtain ⟨a, h1, _, h3⟩ := afterPasses_observed_frame w f k 0 [] [] t hp
      show sleeps t.2.2 = _
      rw [h1, List.nil_append]
      exact h3

/-- A wait policy answering 5 ns and failing at index 2: two sleeps of 5 ns, one
before each of the two operation calls, and none after the failing wait call. -/
theorem Do_sleeps_follow_wait_policy_witness :
    sleeps (passes waitFailsAtTwo 0 2 ++ [Event.waitCall 2])
        = (opCalls (passes waitFailsAtTwo 0 2 ++ [Event.waitCall 2])).map
            (fun i => (waitFailsAtTwo i).1)
      ∧ sleeps (passes waitFailsAtTwo 0 2 ++ [Event.waitCall 2]) = [5, 5] :=
  ⟨((Do_sleeps_follow_wait_policy waitFailsAtTwo neverDone).1 3
      (fmtErrorf 9 "policy failed", [fmtErrorf 1 "failed", fmtErrorf 2 "failed"],
        passes waitFailsAtTwo 0 2 ++ [Event.waitCall 2])
      (by decide)).1, by decide⟩

/-- C17: `Do` on a driver whose log is L, when it returns, leaves a log that is L
followed by the operation's error of each operation call of the run, in order;
a second `Do` on the same driver appends the errors of its own operation calls
after those. -/
theorem Do_keeps_log (w : Nat → Duration × error) (f : Nat → Bool × error) (L : List error)
    (tr : List Event) (fuel : Nat) (out : error × Retrier (List Event) × List Event)
    (h : Retrier.Do observedSleep fuel (observedDriver w f L) tr = some out) :
    ∃ a, out.2.2 = tr ++ a
      ∧ out.2.1.errors = L ++ (opCalls a).map (fun i => (f i).2)
      ∧ ∀ fuel2 out2, Retrier.Do observedSleep fuel2 out.2.1 out.2.2 = some out2 →
          ∃ b, out2.2.2 = tr ++ a ++ b
            ∧ out2.2.1.errors
              = L ++ (opCalls a).map (fun i => (f i).2) ++ (opCalls b).map fun i => (f i).2 := by
  obtain ⟨a, h1, h2, _⟩ := DoFrom_observed_frame w f fuel 0 L tr out h
  refine ⟨a, h1, by rw [h2]; rfl, ?_⟩
  intro fuel2 out2 hsecond
  rw [h2, h1] at hsecond
  obtain ⟨b, k1, k2, _⟩ := DoFrom_observed_frame w f fuel2 0 _ _ out2 hsecond
  exact ⟨b, k1, by rw [k2]; rfl⟩

/-- A driver whose log already holds one error, run to the third attempt: the
old entry stays in front of the three new ones. -/
theorem Do_keeps_log_witness :
    ∃ a, (passes zeroWait 0 3) = [] ++ a
      ∧ [fmtErrorf 5 "old", fmtErrorf 1 "not yet", fmtErrorf 2 "not yet", none]
          = [fmtErrorf 5 "old"] ++ (opCalls a).map (fun i => (doneAtTwo i).2)
      ∧ ∀ fuel2 out2,
          Retrier.Do observedSleep fuel2
              (observedDriver zeroWait doneAtTwo
                [fmtErrorf 5 "old", fmtErrorf 1 "not yet", fmtErrorf 2 "not yet", none])
              (passes zeroWait 0 3) = some out2 →
          ∃ b, out2.2.2 = [] ++ a ++ b
            ∧ out2.2.1.errors
              = [fmtErrorf 5 "old"] ++ (opCalls a).map (fun i => (doneAtTwo i).2)
                  ++ (opCalls b).map fun i => (doneAtTwo i).2 :=
  Do_keeps_log zeroWait doneAtTwo [fmtErrorf 5 "old"] [] 3
    (none,
      observedDriver zeroWait doneAtTwo
        [fmtErrorf 5 "old", fmtErrorf 1 "not yet", fmtErrorf 2 "not yet", none],
      passes zeroWait 0 3)
    rfl

theorem map_mod_range' (k : Nat) (hk : k ≤ uintSize) :
    ((List.range' 0 k).map fun j => j % uintSize) = List.range k := by
  rw [List.range_eq_range']
  conv_rhs => rw [← List.map_id (List.range' 0 k)]
  apply List.map_congr_left
  intro j hj
  rw [List.mem_range'_1] at hj
  exact Nat.mod_eq_of_lt (by omega)

/-- C18: when the wait policy never returns an error and the operation never
reports done, `Do` does not return, whatever the number of passes it is given:
after every number k of passes the loop is still running, and for every k whose
indices 0..k-1 are values of the index type `uint` (k <= 2^64) it has called the
operation with exactly 0, .., k-1.  Nothing in `Do` bounds the passes. -/
theorem Do_never_returns (w : Nat → Duration × error) (f : Nat → Bool × error)
    (hw : ∀ i, (w i).2 = none) (hf : ∀ i, (f i).1 = false) :
    (∀ fuel, observedRun w f fuel = none)
      ∧ (∀ k, (observedAfter w f k).isSome = true)
      ∧ (∀ k, k ≤ uintSize →
          (observedAfter w f k).map (fun st => opCalls st.2.2) = some (List.range k)) := by
  have hnt : ∀ j, j < uintSize → terminal w f j = false := fun j _ =>
    (terminal_eq_false_iff w f j).mpr ⟨hw j, hf j⟩
  refine ⟨fun fuel => ?_, fun k => ?_, fun k hk => ?_⟩
  · rw [observedRun_eq]
    unfold observedDriver
    rw [DoFrom_none_of_never_below observedSleep (observedWait w) (observedOp f)
      (fun i _ s => by simp [observedWait, observed, hw i])
      (fun i _ s => by simp [observedOp, observed, hf i]) fuel 0 [] [] uintSize_pos]
    rfl
  · rw [observedAfter_never w f k hnt]
    rfl
  · rw [observedAfter_never w f k hnt, Option.map_some', opCalls_passesMod,
      map_mod_range' k hk]

/-- The zero-wait policy and an operation that is never done. -/
theorem Do_never_returns_witness :
    (∀ fuel, observedRun zeroWait neverDone fuel = none)
      ∧ (∀ k, (observedAfter zeroWait neverDone k).isSome = true)
      ∧ (∀ k, k ≤ uintSize →
          (observedAfter zeroWait neverDone k).map (fun st => opCalls st.2.2)
            = some (List.range k)) :=
  Do_never_returns zeroWait neverDone (fun _ => rfl) (fun _ => rfl)

/-- C20: when `Do` returns because the wait policy returned an error at index n,
the log has grown by exactly the operation's errors at the indices 0..n-1: no
entry stands for index n and the returned error is not appended.  When `Do`
returns because the operation reported done at index n, the returned value is
the last entry of the log. -/
theorem Do_log_at_return (w : Nat → Duration × error) (f : Nat → Bool × error) (n : Nat)
    (L : List error) (tr : List Event) (fuel : Nat) (hn : n < uintSize)
    (hbelow : ∀ j, j < n → (w j).2 = none ∧ (f j).1 = false) (hfuel : n < fuel) :
    (∀ ev, (w n).2 = some ev →
        (summary (Retrier.Do observedSleep fuel (observedDriver w f L) tr)).map
            (fun o => (o.1, o.2.1))
          = some (some ev, L ++ (List.range n).map fun i => (f i).2))
      ∧ ((w n).2 = none → (f n).1 = true →
          (summary (Retrier.Do observedSleep fuel (observedDriver w f L) tr)).map
              (fun o => (o.1, o.2.1.getLast?, o.2.1.length))
            = some ((f n).2, some (f n).2, L.length + (n + 1))) := by
  have hnt : ∀ j, j < n → terminal w f j = false := fun j hj =>
    (terminal_eq_false_iff w f j).mpr (hbelow j hj)
  constructor
  · intro ev hev
    unfold Retrier.Do
    rw [DoFrom_first_waitErr w f n ev L tr fuel hn hnt hev hfuel]
    simp [summary, observedDriver, opErrors, List.range_eq_range']
  · intro hw hd
    unfold Retrier.Do
    rw [DoFrom_first_done w f n L tr fuel hn hnt hw hd hfuel, opErrors_concat]
    simp [summary, observedDriver, opErrors]

/-- The wait policy failing at index 2 adds two entries to a log of one; an
operation done at index 2 returns the last entry of the log. -/
theorem Do_log_at_return_witness :
    (summary (Retrier.Do observedSleep 3
        (observedDriver waitFailsAtTwo neverDone [fmtErrorf 5 "old"]) [])).map
          (fun o => (o.1, o.2.1))
        = some (fmtErrorf 9 "policy failed",
            [fmtErrorf 5 "old"] ++ (List.range 2).map fun i => (neverDone i).2)
      ∧ (summary (Retrier.Do observedSleep 3
          (observedDriver zeroWait doneAtTwo [fmtErrorf 5 "old"]) [])).map
            (fun o => (o.1, o.2.1.getLast?, o.2.1.length))
          = some (none, some none, 4) :=
  ⟨(Do_log_at_return waitFailsAtTwo neverDone 2 [fmtErrorf 5 "old"] [] 3 (by decide)
      (by decide) (by decide)).1
      { dynType := GoType.errorString, addr := 9, msg := "policy failed" } rfl,
    (Do_log_at_return zeroWait doneAtTwo 2 [fmtErrorf 5 "old"] [] 3 (by decide)
      (by decide) (by decide)).2 rfl rfl⟩

end GoRetry
